import Mathlib

/-!
# Verification of the ByteSmith ACP client runtime

Shallow embedding of the core data model and operations of the ByteSmith
repository (Go): the JSON-RPC client's response correlation
(`internal/acp/client.go`), the session-update wire codec
(`internal/acp/types.go`), the filesystem provider (`internal/fs/provider.go`),
the terminal provider (`internal/terminal/provider.go`), the permission
bridge (`app.go`) and the session store (`internal/session/store.go`).

Go strings carried as file contents are modelled as `List Char`; Go `int` /
`int64` / `time.Duration` are modelled as `Int`; Go maps are modelled as
association lists (unique keys) or explicit update functions mirroring the
source's operations.
-/

/-! ## Response correlation (`Client.handleResponse`, client.go) -/

/-- `JSONRPCMessage.IDAsInt64`: `nil` or unparseable ids map to 0.
The parsed-or-absent id of a response envelope is modelled as `Option Int`. -/
def idAsInt64 (msgId : Option Int) : Int :=
  msgId.getD 0

/-- `Client.handleResponse` (client.go): drop responses whose id is 0
(nil / non-numeric); look the id up in the pending map, delete the entry on
hit and deliver to the waiter; otherwise log and drop.  The pending map is
modelled by its key set (a duplicate-free list); the returned `Bool` records
whether a waiter was delivered to. -/
def handleResponse (pending : List Int) (msgId : Option Int) : List Int × Bool :=
  let id := idAsInt64 msgId
  if id = 0 then (pending, false)
  else if id ∈ pending then (pending.erase id, true)
  else (pending, false)

/-! ## Call timeout and waiting (`Client.call`, client.go) -/

/-- `DefaultRequestTimeout = 30 * time.Second`, in nanoseconds. -/
def defaultRequestTimeout : Int := 30 * 1000000000

/-- The timeout computation in `Client.call`: start from the client timeout;
if the context has a deadline and the remaining time is smaller, use the
remaining time. -/
def callTimeout (requestTimeout : Int) (remaining : Option Int) : Int :=
  match remaining with
  | none => requestTimeout
  | some r => if r < requestTimeout then r else requestTimeout

/-- The four ways the `select` in `Client.call` can resolve. -/
inductive CallResult
  | delivered
  | closedCancelled
  | timedOut
  | ctxCancelled
deriving DecidableEq, Repr

/-- Resolution of the `select` in `Client.call`: the channel case fires at
`respAt` (a closed channel, produced by `Client.Close`, yields the
"cancelled (client closing)" error when `chClosed`), the context case fires
at `ctxAt`, and the timer always fires at `timerAt`.  The earliest event
wins; `none` means the event never occurs before the timer. -/
def waitOutcome (respAt ctxAt : Option Nat) (chClosed : Bool) (timerAt : Nat) :
    CallResult × Nat :=
  let r := respAt.getD (timerAt + 1)
  let c := ctxAt.getD (timerAt + 1)
  if r ≤ timerAt ∧ r ≤ c then
    (if chClosed then CallResult.closedCancelled else CallResult.delivered, r)
  else if c ≤ timerAt then (CallResult.ctxCancelled, c)
  else (CallResult.timedOut, timerAt)

/-- Pending-map cleanup on each exit path of `Client.call`: the timer and
context branches delete the entry themselves; on channel delivery the entry
was already removed (by `handleResponse` or by `Close`). -/
def callPendingAfter (pending : List Int) (id : Int) : CallResult → List Int
  | CallResult.timedOut => pending.erase id
  | CallResult.ctxCancelled => pending.erase id
  | _ => pending

/-- Whether the exit path of `Client.call` produces an error (the channel
delivery path returns the agent's result, or the agent's error object). -/
def callIsError : CallResult → Bool
  | CallResult.delivered => false
  | _ => true

/-! ## Child-exit scenario machine (readLoop in transport, Close, call) -/

/-- Error kind with which a waiter in `Client.call` completes. -/
inductive ErrKind
  | ok
  | cancelled
  | timedOut
  | ctxErr
deriving DecidableEq, Repr

/-- Joint state of one transport + client: `running`/`doneClosed` from
`StdioTransport`, the pending id set of the client, and the list of waiter
completions so far (in order). -/
structure SysState where
  running : Bool
  doneClosed : Bool
  pending : List Int
  completions : List (Int × ErrKind)
deriving DecidableEq, Repr

/-- The events that can touch this state in the source. -/
inductive SysEvent
  | childEof
  | clientClose
  | respond (msgId : Option Int)
  | timerFire (id : Int)

/-- One step of the system, read off the source:
* `childEof` — the transport `readLoop` observes EOF on child stdout: its
  deferred cleanup stores `running = false` and closes `done`, and nothing
  else (no pending entry is touched, no waiter completes);
* `clientClose` — `Client.Close` walks the pending table, closes every
  channel (each waiter returns the "cancelled (client closing)" error) and
  empties it;
* `respond` — `handleResponse` as above, a delivered waiter completes ok
  (with the agent's result or error object);
* `timerFire` — the timer branch of `Client.call` for a still-pending id:
  deletes the entry and returns a timeout error. -/
def stepSys (s : SysState) : SysEvent → SysState
  | SysEvent.childEof => { s with running := false, doneClosed := true }
  | SysEvent.clientClose =>
      { s with pending := [],
               completions := s.completions ++ s.pending.map (fun i => (i, ErrKind.cancelled)) }
  | SysEvent.respond msgId =>
      let r := handleResponse s.pending msgId
      { s with pending := r.1,
               completions :=
                 if r.2 then s.completions ++ [(idAsInt64 msgId, ErrKind.ok)]
                 else s.completions }
  | SysEvent.timerFire id =>
      if id ∈ s.pending then
        { s with pending := s.pending.erase id,
                 completions := s.completions ++ [(id, ErrKind.timedOut)] }
      else s

/-- The events the `SendPrompt` goroutine (app.go) emits once its
`Client.Prompt` call returns: `agent:prompt-done` on success, `agent:error`
on any error. -/
def promptEvents (e : ErrKind) : List String :=
  if e = ErrKind.ok then ["agent:prompt-done"] else ["agent:error"]

/-! ## Theorems: C1, C3, C4 -/

/-- C1: for every incoming response envelope, the pending slot for its id is
fulfilled at most once: on a hit the entry is deleted before delivering (the
id is no longer pending afterwards), two responses with the same id are
never both delivered, and a response whose id matches no pending entry
leaves the pending map unchanged and delivers nothing. -/
theorem C1_response_delivered_at_most_once
    (pending : List Int) (msgId : Option Int) (hnd : pending.Nodup) :
    ((handleResponse pending msgId).2 = true →
      idAsInt64 msgId ∉ (handleResponse pending msgId).1) ∧
    ¬ ((handleResponse pending msgId).2 = true ∧
        (handleResponse (handleResponse pending msgId).1 msgId).2 = true) ∧
    (idAsInt64 msgId ∉ pending →
      handleResponse pending msgId = (pending, false)) := by
  unfold handleResponse
  by_cases h0 : idAsInt64 msgId = 0
  · simp [h0]
  · by_cases hmem : idAsInt64 msgId ∈ pending
    · have herase : idAsInt64 msgId ∉ pending.erase (idAsInt64 msgId) :=
        hnd.not_mem_erase
      simp [h0, hmem, herase]
    · simp [h0, hmem]

/-- C1 witness: a concrete pending map `[1, 2]` receiving the response with
id 1 twice. -/
theorem C1_response_delivered_at_most_once_witness :
    ((handleResponse [1, 2] (some 1)).2 = true →
      idAsInt64 (some 1) ∉ (handleResponse [1, 2] (some 1)).1) ∧
    ¬ ((handleResponse [1, 2] (some 1)).2 = true ∧
        (handleResponse (handleResponse [1, 2] (some 1)).1 (some 1)).2 = true) ∧
    (idAsInt64 (some 1) ∉ [1, 2] →
      handleResponse [1, 2] (some 1) = ([1, 2], false)) :=
  C1_response_delivered_at_most_once [1, 2] (some 1) (by decide)

/-- C3 counterexample: with request id 7 in flight, the transport reader
observing EOF on child stdout completes nothing at all (the pending entry is
untouched), and the call then completes through its timer with a timeout
error — not the cancelled error the claim states. -/
theorem C3_counterexample :
    (stepSys ⟨true, false, [7], []⟩ SysEvent.childEof).completions = [] ∧
    (stepSys ⟨true, false, [7], []⟩ SysEvent.childEof).pending = [7] ∧
    (stepSys (stepSys ⟨true, false, [7], []⟩ SysEvent.childEof)
        (SysEvent.timerFire 7)).completions = [(7, ErrKind.timedOut)] ∧
    ErrKind.timedOut ≠ ErrKind.cancelled := by
  decide

/-- C3 (amended): a child exit (reader EOF) by itself completes no pending
call and leaves the pending table unchanged; a pending call instead
completes with a timeout error when its timer fires; for every non-ok
completion no `agent:prompt-done` event is emitted (an `agent:error` event
is emitted instead); and waiters complete with the cancelled error exactly
when `Client.Close` walks the pending table. -/
theorem C3_child_exit_pending_calls
    (s : SysState) (id : Int) (e : ErrKind) :
    (stepSys s SysEvent.childEof).pending = s.pending ∧
    (stepSys s SysEvent.childEof).completions = s.completions ∧
    (id ∈ s.pending →
      (stepSys s (SysEvent.timerFire id)).completions =
        s.completions ++ [(id, ErrKind.timedOut)]) ∧
    (e ≠ ErrKind.ok →
      "agent:prompt-done" ∉ promptEvents e ∧ promptEvents e = ["agent:error"]) ∧
    (stepSys s SysEvent.clientClose).completions =
      s.completions ++ s.pending.map (fun i => (i, ErrKind.cancelled)) := by
  refine ⟨rfl, rfl, ?_, ?_, rfl⟩
  · intro hmem
    simp [stepSys, hmem]
  · intro hne
    simp [promptEvents, hne]

/-- C3 amended witness: state with id 7 pending, completion kind `timedOut`. -/
theorem C3_child_exit_pending_calls_witness :
    (stepSys ⟨true, false, [7], []⟩ (SysEvent.timerFire 7)).completions =
      [(7, ErrKind.timedOut)] ∧
    "agent:prompt-done" ∉ promptEvents ErrKind.timedOut :=
  ⟨((C3_child_exit_pending_calls ⟨true, false, [7], []⟩ 7 ErrKind.timedOut).2.2.1
      (by decide)),
   ((C3_child_exit_pending_calls ⟨true, false, [7], []⟩ 7 ErrKind.timedOut).2.2.2.1
      (by decide)).1⟩

/-- The `select` in `Client.call` resolves no later than the timer. -/
theorem waitOutcome_time_le (respAt ctxAt : Option Nat) (chClosed : Bool)
    (timerAt : Nat) :
    (waitOutcome respAt ctxAt chClosed timerAt).2 ≤ timerAt := by
  unfold waitOutcome
  by_cases h1 : respAt.getD (timerAt + 1) ≤ timerAt ∧
      respAt.getD (timerAt + 1) ≤ ctxAt.getD (timerAt + 1)
  · simp [h1]
  · by_cases h2 : ctxAt.getD (timerAt + 1) ≤ timerAt
    · simp [h1, h2]
    · simp [h1, h2]

/-- C4: each outgoing call waits for the lesser of the client default (30 s)
and the time remaining to the caller's deadline; the `select` resolves no
later than that bound; and when the timer branch fires the pending entry is
removed and the call returns an error (the timeout error). -/
theorem C4_call_bounded_wait
    (remaining : Option Int) (respAt ctxAt : Option Nat) (chClosed : Bool)
    (pending : List Int) (id : Int) (hnd : pending.Nodup) :
    (∀ r, remaining = some r →
      callTimeout defaultRequestTimeout remaining = min defaultRequestTimeout r) ∧
    (remaining = none →
      callTimeout defaultRequestTimeout remaining = defaultRequestTimeout) ∧
    (waitOutcome respAt ctxAt chClosed
        (callTimeout defaultRequestTimeout remaining).toNat).2 ≤
      (callTimeout defaultRequestTimeout remaining).toNat ∧
    ((waitOutcome respAt ctxAt chClosed
        (callTimeout defaultRequestTimeout remaining).toNat).1 = CallResult.timedOut →
      id ∉ callPendingAfter pending id CallResult.timedOut ∧
      callIsError CallResult.timedOut = true) := by
  refine ⟨?_, ?_, ?_, ?_⟩
  · intro r hr
    subst hr
    simp only [callTimeout]
    split <;> omega
  · intro h
    subst h
    rfl
  · exact waitOutcome_time_le respAt ctxAt chClosed _
  · intro _
    refine ⟨?_, rfl⟩
    simpa [callPendingAfter] using hnd.not_mem_erase

/-- C4 witness: a 5-second deadline against the 30-second default, no
response and no context cancellation, pending map `[3]`. -/
theorem C4_call_bounded_wait_witness :
    callTimeout defaultRequestTimeout (some 5000000000) =
      min defaultRequestTimeout 5000000000 ∧
    (waitOutcome none none false
        (callTimeout defaultRequestTimeout (some 5000000000)).toNat).2 ≤
      (callTimeout defaultRequestTimeout (some 5000000000)).toNat ∧
    (3 : Int) ∉ callPendingAfter [3] 3 CallResult.timedOut := by
  have h := C4_call_bounded_wait (some 5000000000) none none false [3] 3 (by decide)
  refine ⟨h.1 5000000000 rfl, h.2.2.1, ?_⟩
  have hout : (waitOutcome none none false
      (callTimeout defaultRequestTimeout (some 5000000000)).toNat).1 =
      CallResult.timedOut := by decide
  exact (h.2.2.2 hout).1

/-! ## Filesystem provider (internal/fs/provider.go)

File contents and lines are Go strings, modelled as `List Char`. -/

/-- `dropCR` from `bufio` (used by `bufio.ScanLines`): drops one terminal
carriage return from a line. -/
def dropCR (l : List Char) : List Char :=
  if l.getLast? = some '\r' then l.dropLast else l

/-- Split a character sequence at every newline.  The result is the list of
newline-separated segments and is always non-empty (an empty input has the
single empty segment). -/
def splitNl : List Char → List (List Char)
  | [] => [[]]
  | c :: rest =>
      let r := splitNl rest
      if c = '\n' then [] :: r
      else (c :: r.headD []) :: r.tail

/-- `strings.Join(lines, "\n")`. -/
def joinNl : List (List Char) → List Char
  | [] => []
  | [l] => l
  | l :: ls => l ++ '\n' :: joinNl ls

@[simp] theorem joinNl_nil : joinNl [] = [] := rfl

@[simp] theorem joinNl_single (l : List Char) : joinNl [l] = l := rfl

theorem joinNl_cons_cons (a b : List Char) (t : List (List Char)) :
    joinNl (a :: b :: t) = a ++ '\n' :: joinNl (b :: t) := rfl

/-- The token sequence produced by a `bufio.Scanner` with `bufio.ScanLines`
over the whole content: every newline-separated segment with a trailing
carriage return stripped, except that the final segment is not emitted when
it is empty (content empty or ending in a newline). -/
def scanLines (content : List Char) : List (List Char) :=
  let ps := splitNl content
  (if ps.getLast? = some [] then ps.dropLast else ps).map dropCR

/-- `Provider.HandleReadTextFile` (provider.go) after scanning: select from
the scanned lines.  `line` is the 1-based offset (0 or negative defaults to
1), a positive `limit` caps the number of lines, and a trailing newline is
restored when reading through to the last line of a non-empty file. -/
def handleReadTextFile (allLines : List (List Char)) (line limit : Int) :
    List Char :=
  let totalLines : Int := allLines.length
  let offset := if line ≤ 0 then 1 else line
  if offset > totalLines then []
  else
    let startIdx := offset - 1
    let endIdx :=
      if limit > 0 ∧ startIdx + limit < totalLines then startIdx + limit
      else totalLines
    let selected := (allLines.drop startIdx.toNat).take (endIdx - startIdx).toNat
    let content := joinNl selected
    if endIdx = totalLines ∧ totalLines > 0 then content ++ ['\n'] else content

/-- The claim's reading of `readTextFile`, stated in its own words: empty
content when `line` exceeds the number of lines; otherwise the 1-based
start defaults to 1 when `line` is 0 or negative, the selection runs
`limit` lines (to the end when `limit` is 0), the selected lines are joined
with a newline, and a trailing newline is appended iff the selection
extends to the last line and the file is non-empty. -/
def readTextFileSpec (allLines : List (List Char)) (line limit : Int) :
    List Char :=
  let n : Int := allLines.length
  if line > n then []
  else
    let start := if line ≤ 0 then 1 else line
    let fromStart := allLines.drop (start - 1).toNat
    let sel := if limit = 0 then fromStart else fromStart.take limit.toNat
    joinNl sel ++
      (if (start - 1).toNat + sel.length = allLines.length ∧ allLines ≠ []
       then ['\n'] else [])

/-- The selected slice of `HandleReadTextFile` coincides with the claim's
selection. -/
theorem selectedLines_eq (L : List (List Char)) (off limit : Int)
    (h1 : 1 ≤ off) (h2 : off ≤ (L.length : Int)) (hlim : 0 ≤ limit) :
    (L.drop (off - 1).toNat).take
        ((if limit > 0 ∧ off - 1 + limit < (L.length : Int) then off - 1 + limit
          else (L.length : Int)) - (off - 1)).toNat =
      if limit = 0 then L.drop (off - 1).toNat
      else (L.drop (off - 1).toNat).take limit.toNat := by
  have hdroplen : (L.drop (off - 1).toNat).length = L.length - (off - 1).toNat :=
    List.length_drop _ _
  by_cases hl0 : limit = 0
  · subst hl0
    rw [if_neg (by omega), if_pos rfl]
    apply List.take_of_length_le
    omega
  · rw [if_neg hl0]
    by_cases hcap : limit > 0 ∧ off - 1 + limit < (L.length : Int)
    · rw [if_pos hcap]
      congr 1
      omega
    · rw [if_neg hcap]
      rw [List.take_of_length_le (by omega),
        List.take_of_length_le (by omega)]

/-- The trailing-newline condition of `HandleReadTextFile` coincides with
the claim's "selection extends to the last line and the file is non-empty". -/
theorem trailingCond_iff (L : List (List Char)) (off limit : Int)
    (h1 : 1 ≤ off) (h2 : off ≤ (L.length : Int)) (hlim : 0 ≤ limit) :
    (((if limit > 0 ∧ off - 1 + limit < (L.length : Int) then off - 1 + limit
       else (L.length : Int)) = (L.length : Int) ∧ (L.length : Int) > 0) ↔
      ((off - 1).toNat +
          (if limit = 0 then L.drop (off - 1).toNat
           else (L.drop (off - 1).toNat).take limit.toNat).length = L.length ∧
        L ≠ [])) := by
  have hdroplen : (L.drop (off - 1).toNat).length = L.length - (off - 1).toNat :=
    List.length_drop _ _
  have hne : (0 < L.length) ↔ L ≠ [] := List.length_pos
  by_cases hl0 : limit = 0
  · subst hl0
    rw [if_neg (by omega), if_pos rfl]
    constructor
    · intro h
      exact ⟨by omega, hne.mp (by omega)⟩
    · intro h
      have := hne.mpr h.2
      exact ⟨rfl, by omega⟩
  · rw [if_neg hl0]
    have htakelen : ((L.drop (off - 1).toNat).take limit.toNat).length =
        min limit.toNat (L.drop (off - 1).toNat).length := List.length_take _ _
    by_cases hcap : limit > 0 ∧ off - 1 + limit < (L.length : Int)
    · rw [if_pos hcap]
      constructor
      · intro h
        omega
      · intro h
        have := h.1
        omega
    · rw [if_neg hcap]
      constructor
      · intro h
        refine ⟨by omega, hne.mp (by omega)⟩
      · intro h
        have := hne.mpr h.2
        exact ⟨rfl, by omega⟩

theorem ite_append_singleton (c : Prop) [Decidable c] (x y : List Char) :
    (if c then x ++ y else x) = x ++ (if c then y else []) := by
  by_cases h : c
  · simp [h]
  · simp [h]

/-- C5: `HandleReadTextFile` computes exactly what the claim describes, for
every scanned line list and every non-negative `limit`. -/
theorem C5_read_text_file (L : List (List Char)) (line limit : Int)
    (hlim : 0 ≤ limit) :
    handleReadTextFile L line limit = readTextFileSpec L line limit := by
  have hn0 : (0 : Int) ≤ (L.length : Int) := Int.natCast_nonneg _
  simp only [handleReadTextFile, readTextFileSpec]
  by_cases h0 : line ≤ 0
  · rw [if_pos h0, if_neg (show ¬ line > (L.length : Int) by omega)]
    by_cases hL : L.length = 0
    · have hnil : L = [] := List.length_eq_zero.mp hL
      subst hnil
      simp
    · rw [if_neg (show ¬ (1 : Int) > (L.length : Int) by omega)]
      rw [selectedLines_eq L 1 limit le_rfl (by omega) hlim,
        ite_congr (propext (trailingCond_iff L 1 limit le_rfl (by omega) hlim))
          (fun _ => rfl) (fun _ => rfl)]
      exact ite_append_singleton _ _ _
  · rw [if_neg h0]
    by_cases hgt : line > (L.length : Int)
    · rw [if_pos hgt, if_pos hgt]
    · rw [if_neg hgt, if_neg hgt]
      rw [selectedLines_eq L line limit (by omega) (by omega) hlim,
        ite_congr (propext (trailingCond_iff L line limit (by omega) (by omega) hlim))
          (fun _ => rfl) (fun _ => rfl)]
      exact ite_append_singleton _ _ _

/-- C5 witness: the file `["a", "b", "c"]` read from line 2 with limit 1. -/
theorem C5_read_text_file_witness :
    handleReadTextFile [['a'], ['b'], ['c']] 2 1 =
      readTextFileSpec [['a'], ['b'], ['c']] 2 1 :=
  C5_read_text_file [['a'], ['b'], ['c']] 2 1 (by decide)

/-! ### Write/read round trip (C6) -/

theorem splitNl_newline (rest : List Char) :
    splitNl ('\n' :: rest) = [] :: splitNl rest := by
  simp [splitNl]

theorem splitNl_other (c : Char) (rest : List Char) (hc : c ≠ '\n') :
    splitNl (c :: rest) =
      (c :: (splitNl rest).headD []) :: (splitNl rest).tail := by
  simp [splitNl, hc]

theorem splitNl_ne_nil (s : List Char) : splitNl s ≠ [] := by
  cases s with
  | nil => simp [splitNl]
  | cons c rest =>
    by_cases hc : c = '\n'
    · subst hc
      rw [splitNl_newline]
      simp
    · rw [splitNl_other c rest hc]
      simp

theorem joinNl_splitNl (s : List Char) : joinNl (splitNl s) = s := by
  induction s with
  | nil => rfl
  | cons c rest ih =>
    by_cases hc : c = '\n'
    · subst hc
      rw [splitNl_newline]
      rcases hr : splitNl rest with _ | ⟨h, t⟩
      · exact absurd hr (splitNl_ne_nil rest)
      · rw [hr] at ih
        rw [joinNl_cons_cons, ih]
        rfl
    · rw [splitNl_other c rest hc]
      rcases hr : splitNl rest with _ | ⟨h, t⟩
      · exact absurd hr (splitNl_ne_nil rest)
      · rw [hr] at ih
        simp only [List.headD_cons, List.tail_cons]
        cases t with
        | nil =>
          simp only [joinNl_single] at ih ⊢
          rw [ih]
        | cons t0 ts =>
          rw [joinNl_cons_cons] at ih
          rw [joinNl_cons_cons, List.cons_append, ih]

theorem mem_of_mem_splitNl {a : Char} :
    ∀ (s t : List Char), t ∈ splitNl s → a ∈ t → a ∈ s := by
  intro s
  induction s with
  | nil =>
    intro t ht ha
    simp only [splitNl, List.mem_singleton] at ht
    subst ht
    simp at ha
  | cons c rest ih =>
    intro t ht ha
    by_cases hc : c = '\n'
    · subst hc
      rw [splitNl_newline] at ht
      rcases List.mem_cons.mp ht with h1 | h2
      · subst h1
        simp at ha
      · exact List.mem_cons_of_mem _ (ih t h2 ha)
    · rw [splitNl_other c rest hc] at ht
      rcases hr : splitNl rest with _ | ⟨h, ts⟩
      · exact absurd hr (splitNl_ne_nil rest)
      · rw [hr] at ht
        simp only [List.headD_cons, List.tail_cons] at ht
        rcases List.mem_cons.mp ht with h1 | h2
        · subst h1
          rcases List.mem_cons.mp ha with rfl | hmem
          · exact List.mem_cons_self _ _
          · refine List.mem_cons_of_mem _ (ih h ?_ hmem)
            rw [hr]
            exact List.mem_cons_self _ _
        · refine List.mem_cons_of_mem _ (ih t ?_ ha)
          rw [hr]
          exact List.mem_cons_of_mem _ h2

theorem dropCR_of_not_mem (t : List Char) (h : '\r' ∉ t) : dropCR t = t := by
  unfold dropCR
  split
  · next hlast => exact absurd (List.mem_of_mem_getLast? hlast) h
  · rfl

theorem joinNl_concat_nil :
    ∀ (l : List (List Char)), l ≠ [] → joinNl (l ++ [[]]) = joinNl l ++ ['\n'] := by
  intro l
  induction l with
  | nil => intro h; exact absurd rfl h
  | cons a t ih =>
    intro _
    cases t with
    | nil => rfl
    | cons b ts =>
      have hrec := ih (by simp)
      simp only [List.cons_append] at hrec ⊢
      rw [joinNl_cons_cons, joinNl_cons_cons, hrec]
      simp

/-- Reading a non-empty scanned file from line 1 with limit 0 returns all
lines joined, with the trailing newline restored. -/
theorem handleReadTextFile_all (l : List (List Char)) (h : l ≠ []) :
    handleReadTextFile l 1 0 = joinNl l ++ ['\n'] := by
  have hpos : 0 < l.length := List.length_pos.mpr h
  simp only [handleReadTextFile]
  rw [if_neg (by norm_num : ¬ (1 : Int) ≤ 0)]
  rw [if_neg (show ¬ (1 : Int) > (l.length : Int) by omega)]
  rw [if_neg (by norm_num : ¬ ((0 : Int) > 0 ∧ (1 : Int) - 1 + 0 < (l.length : Int)))]
  have h1 : ((1 : Int) - 1).toNat = 0 := by norm_num
  rw [h1, List.drop_zero]
  have h2 : ((l.length : Int) - (1 - 1)).toNat = l.length := by omega
  rw [h2, List.take_length]
  rw [if_pos ⟨rfl, by omega⟩]

/-- The scanner tokens of a CR-free content, followed by the full read of
`HandleReadTextFile`, restore the content up to one trailing newline. -/
theorem read_scanLines_round_trip (c : List Char) (hcr : '\r' ∉ c) :
    handleReadTextFile (scanLines c) 1 0 = c ∨
      handleReadTextFile (scanLines c) 1 0 = c ++ ['\n'] := by
  have hjoin : joinNl (splitNl c) = c := joinNl_splitNl c
  have hmapid : ∀ (X : List (List Char)), (∀ t ∈ X, t ∈ splitNl c) →
      X.map dropCR = X := by
    intro X hX
    rw [List.map_congr_left (fun t ht =>
      dropCR_of_not_mem t (fun hmem => hcr (mem_of_mem_splitNl c t (hX t ht) hmem)))]
    exact List.map_id X
  simp only [scanLines]
  by_cases hlast : (splitNl c).getLast? = some []
  · rw [if_pos hlast]
    rw [hmapid _ (fun t ht => List.dropLast_subset _ ht)]
    have hdecomp : (splitNl c).dropLast ++ [[]] = splitNl c :=
      List.dropLast_append_getLast? [] hlast
    by_cases hdl : (splitNl c).dropLast = []
    · left
      have hc : c = [] := by
        rw [← hjoin, ← hdecomp, hdl]
        rfl
      subst hc
      simp only [splitNl] at hdl ⊢
      rw [hdl]
      rfl
    · left
      rw [handleReadTextFile_all _ hdl, ← joinNl_concat_nil _ hdl, hdecomp, hjoin]
  · rw [if_neg hlast]
    rw [hmapid _ (fun t ht => ht)]
    right
    rw [handleReadTextFile_all _ (splitNl_ne_nil c), hjoin]

/-- A file-change record (`fs.FileChange`). -/
structure FileChange where
  path : List Char
  oldContent : List Char
  newContent : List Char
  timestamp : Nat
deriving DecidableEq, Repr

/-- `Provider.HandleWriteTextFile` (provider.go): read the existing content
(missing file = empty old content), write the new content verbatim, and
append a change record.  The disk is modelled as an association list from
path to content (most recent write first, as `List.lookup` reads it). -/
def handleWriteTextFile (disk : List (List Char × List Char))
    (changes : List FileChange) (path content : List Char) (now : Nat) :
    List (List Char × List Char) × List FileChange :=
  let oldContent := (disk.lookup path).getD []
  ((path, content) :: disk, changes ++ [⟨path, oldContent, content, now⟩])

/-- `Provider.HandleReadTextFile` against the disk: open the file (`none`
models the open error for a missing path), scan its lines, select. -/
def readTextFileAt (disk : List (List Char × List Char))
    (path : List Char) (line limit : Int) : Option (List Char) :=
  (disk.lookup path).map (fun content => handleReadTextFile (scanLines content) line limit)

/-- C6 counterexample: writing `"a\r\n"` and reading it back from line 1
with limit 0 yields `"a\n"` — the scanner strips the carriage return — which
is neither the written content nor the written content with one trailing
newline appended. -/
theorem C6_counterexample :
    readTextFileAt (handleWriteTextFile [] [] ['p'] ['a', '\r', '\n'] 0).1
        ['p'] 1 0 = some ['a', '\n'] ∧
    some ['a', '\n'] ≠ some ['a', '\r', '\n'] ∧
    some ['a', '\n'] ≠ some (['a', '\r', '\n'] ++ ['\n']) := by
  decide

/-- C6 (amended): for every path and every content free of carriage
returns, `writeTextFile` followed by `readTextFile(p, 1, 0)` returns the
content, possibly with one trailing newline appended. -/
theorem C6_write_read_round_trip (disk : List (List Char × List Char))
    (changes : List FileChange) (p c : List Char) (now : Nat)
    (hcr : '\r' ∉ c) :
    readTextFileAt (handleWriteTextFile disk changes p c now).1 p 1 0 = some c ∨
      readTextFileAt (handleWriteTextFile disk changes p c now).1 p 1 0 =
        some (c ++ ['\n']) := by
  have hlookup : ((handleWriteTextFile disk changes p c now).1).lookup p = some c := by
    simp [handleWriteTextFile, List.lookup]
  rcases read_scanLines_round_trip c hcr with h | h
  · left
    simp [readTextFileAt, hlookup, h]
  · right
    simp [readTextFileAt, hlookup, h]

/-- C6 amended witness: writing `"hi"` (no trailing newline) to an empty
disk and reading it back. -/
theorem C6_write_read_round_trip_witness :
    readTextFileAt (handleWriteTextFile [] [] ['p'] ['h', 'i'] 3).1 ['p'] 1 0 =
        some ['h', 'i'] ∨
      readTextFileAt (handleWriteTextFile [] [] ['p'] ['h', 'i'] 3).1 ['p'] 1 0 =
        some (['h', 'i'] ++ ['\n']) :=
  C6_write_read_round_trip [] [] ['p'] ['h', 'i'] 3 (by decide)

/-! ## Terminal provider (internal/terminal/provider.go) -/

/-- A terminal's output buffer state: the byte buffer, the truncation flag
and the configured byte limit (`Terminal.Output`, `.Truncated`,
`.ByteLimit`).  Bytes are modelled as naturals. -/
structure TerminalBuf where
  output : List Nat
  truncated : Bool
  byteLimit : Int
deriving DecidableEq, Repr

/-- `HandleCreate` (provider.go): the byte limit defaults to 1 MiB when the
requested `outputByteLimit` is 0 or negative. -/
def effByteLimit (outputByteLimit : Int) : Int :=
  if outputByteLimit ≤ 0 then 1024 * 1024 else outputByteLimit

/-- One chunk append of `Provider.readOutput`: write the chunk to the
buffer; if the buffer is over the limit, drop the excess from the head and
latch `Truncated`. -/
def appendOutput (t : TerminalBuf) (chunk : List Nat) : TerminalBuf :=
  let out := t.output ++ chunk
  if (out.length : Int) > t.byteLimit then
    { t with output := out.drop ((out.length : Int) - t.byteLimit).toNat,
             truncated := true }
  else { t with output := out }

/-- The buffer after `readOutput` has consumed a sequence of chunks,
starting from the fresh terminal of `HandleCreate`. -/
def runOutput (limit : Int) (chunks : List (List Nat)) : TerminalBuf :=
  chunks.foldl appendOutput ⟨[], false, limit⟩

theorem appendOutput_byteLimit (t : TerminalBuf) (chunk : List Nat) :
    (appendOutput t chunk).byteLimit = t.byteLimit := by
  simp only [appendOutput]
  split <;> rfl

theorem appendOutput_len_le (t : TerminalBuf) (chunk : List Nat)
    (hinv : (t.output.length : Int) ≤ t.byteLimit) :
    ((appendOutput t chunk).output.length : Int) ≤ t.byteLimit := by
  simp only [appendOutput]
  split
  · next hover =>
    simp only [List.length_drop]
    omega
  · next hok =>
    simp only [List.length_append] at hok ⊢
    omega

theorem appendOutput_suffix (t : TerminalBuf) (chunk : List Nat) :
    (appendOutput t chunk).output <:+ t.output ++ chunk := by
  simp only [appendOutput]
  split
  · exact List.drop_suffix _ _
  · exact List.suffix_refl _

theorem appendOutput_truncated_latch (t : TerminalBuf) (chunk : List Nat)
    (h : t.truncated = true) : (appendOutput t chunk).truncated = true := by
  simp only [appendOutput]
  split
  · rfl
  · exact h

theorem isSuffix_append_right {l₁ l₂ r : List Nat} (h : l₁ <:+ l₂) :
    l₁ ++ r <:+ l₂ ++ r := by
  obtain ⟨w, hw⟩ := h
  exact ⟨w, by rw [← List.append_assoc, hw]⟩

theorem foldl_appendOutput_byteLimit :
    ∀ (chunks : List (List Nat)) (t : TerminalBuf),
      (chunks.foldl appendOutput t).byteLimit = t.byteLimit := by
  intro chunks
  induction chunks with
  | nil => intro t; rfl
  | cons c cs ih =>
    intro t
    rw [List.foldl_cons, ih, appendOutput_byteLimit]

theorem foldl_appendOutput_len_le :
    ∀ (chunks : List (List Nat)) (t : TerminalBuf),
      (t.output.length : Int) ≤ t.byteLimit →
      (((chunks.foldl appendOutput t).output.length : Int) ≤ t.byteLimit) := by
  intro chunks
  induction chunks with
  | nil => intro t hinv; exact hinv
  | cons c cs ih =>
    intro t hinv
    rw [List.foldl_cons]
    have hbl := appendOutput_byteLimit t c
    have := ih (appendOutput t c)
      (by rw [hbl]; exact appendOutput_len_le t c hinv)
    rwa [hbl] at this

/-- Total number of bytes `readOutput` has consumed. -/
def totalLen (chunks : List (List Nat)) : Nat :=
  (chunks.map List.length).sum

theorem totalLen_cons (c : List Nat) (cs : List (List Nat)) :
    totalLen (c :: cs) = c.length + totalLen cs := by
  simp [totalLen]

theorem foldl_appendOutput_suffix :
    ∀ (chunks : List (List Nat)) (t : TerminalBuf),
      (chunks.foldl appendOutput t).output <:+ t.output ++ chunks.flatten := by
  intro chunks
  induction chunks with
  | nil => intro t; simp
  | cons c cs ih =>
    intro t
    rw [List.foldl_cons, List.flatten_cons, ← List.append_assoc]
    exact (ih (appendOutput t c)).trans
      (isSuffix_append_right (appendOutput_suffix t c))

theorem foldl_appendOutput_truncated_latch :
    ∀ (chunks : List (List Nat)) (t : TerminalBuf), t.truncated = true →
      (chunks.foldl appendOutput t).truncated = true := by
  intro chunks
  induction chunks with
  | nil => intro t h; exact h
  | cons c cs ih =>
    intro t h
    rw [List.foldl_cons]
    exact ih _ (appendOutput_truncated_latch t c h)

theorem foldl_appendOutput_not_truncated :
    ∀ (chunks : List (List Nat)) (t : TerminalBuf), t.truncated = false →
      ((t.output.length : Int) + (totalLen chunks : Int) ≤ t.byteLimit) →
      (chunks.foldl appendOutput t).truncated = false := by
  intro chunks
  induction chunks with
  | nil => intro t h _; exact h
  | cons c cs ih =>
    intro t h hlen
    rw [totalLen_cons] at hlen
    push_cast at hlen
    rw [List.foldl_cons]
    have hstep : appendOutput t c = { t with output := t.output ++ c } := by
      simp only [appendOutput]
      rw [if_neg (by simp only [List.length_append]; push_cast; omega)]
    rw [hstep]
    refine ih _ h ?_
    simp only [List.length_append]
    push_cast
    omega

/-- C7: the terminal's output buffer never exceeds its byte limit (which
`HandleCreate` makes positive, defaulting to 1 MiB); the buffer is always a
suffix of the full stream, so the tail is preserved when bytes are evicted
from the head; once `truncated` is set it stays set; and a truncated
terminal has received strictly more bytes than its limit (at least one byte
was evicted). -/
theorem C7_terminal_output_bounded (outputByteLimit : Int)
    (chunks : List (List Nat)) (t : TerminalBuf) (c : List Nat) :
    0 < effByteLimit outputByteLimit ∧
    ((runOutput (effByteLimit outputByteLimit) chunks).output.length : Int) ≤
      effByteLimit outputByteLimit ∧
    (runOutput (effByteLimit outputByteLimit) chunks).output <:+ chunks.flatten ∧
    ((runOutput (effByteLimit outputByteLimit) chunks).truncated = true →
      effByteLimit outputByteLimit < (totalLen chunks : Int)) ∧
    (t.truncated = true → (appendOutput t c).truncated = true) := by
  have hpos : 0 < effByteLimit outputByteLimit := by
    simp only [effByteLimit]
    split <;> omega
  refine ⟨hpos, ?_, ?_, ?_, appendOutput_truncated_latch t c⟩
  · exact foldl_appendOutput_len_le chunks ⟨[], false, _⟩ (by simpa using hpos.le)
  · have := foldl_appendOutput_suffix chunks ⟨[], false, effByteLimit outputByteLimit⟩
    simpa using this
  · intro htr
    by_contra hle
    push_neg at hle
    have hnt := foldl_appendOutput_not_truncated chunks
      ⟨[], false, effByteLimit outputByteLimit⟩ rfl (by simpa using hle)
    rw [runOutput] at htr
    rw [hnt] at htr
    exact Bool.false_ne_true htr

/-- C7 witness: limit 2 with a 3-byte chunk (truncation occurs), and a
latched terminal staying latched. -/
theorem C7_terminal_output_bounded_witness :
    0 < effByteLimit 2 ∧
    ((runOutput (effByteLimit 2) [[1, 2, 3]]).output.length : Int) ≤
      effByteLimit 2 ∧
    (runOutput (effByteLimit 2) [[1, 2, 3]]).output <:+ [[1, 2, 3]].flatten ∧
    effByteLimit 2 < (totalLen [[1, 2, 3]] : Int) ∧
    (appendOutput ⟨[5], true, 8⟩ [6]).truncated = true := by
  have h := C7_terminal_output_bounded 2 [[1, 2, 3]] ⟨[5], true, 8⟩ [6]
  exact ⟨h.1, h.2.1, h.2.2.1, h.2.2.2.1 (by decide), h.2.2.2.2 (by decide)⟩

/-! ## Permission bridge (app.go) -/

/-- Go map assignment `a.pendingPermissions[connectionID] = ch` in
`App.handlePermissionRequest`: the entry for the connection id is stored
unconditionally, replacing any existing entry.  Channels are identified by
a numeric token. -/
def registerPermission (m : List (String × Nat)) (connID : String)
    (ch : Nat) : List (String × Nat) :=
  (connID, ch) :: m.filter (fun e => e.1 != connID)

/-- `App.RespondPermission` (app.go): look up the channel for the
connection id and deliver the chosen option id into it; unknown connection
ids are silently ignored.  The result names the channel that receives the
delivery. -/
def respondPermission (m : List (String × Nat)) (connID optionID : String) :
    Option (Nat × String) :=
  match m.lookup connID with
  | some ch => some (ch, optionID)
  | none => none

/-- C8: the code violates the claimed invariant.  With a permission request
already pending on connection `"conn"` (waiter channel 1), a second
concurrent `requestPermission` on the same connection replaces the entry
with its own channel 2, so the first waiter's delivery slot is orphaned:
`RespondPermission` now delivers to channel 2 only. -/
theorem C8_pending_permission_clobbered :
    (registerPermission [] "conn" 1).lookup "conn" = some 1 ∧
    (registerPermission (registerPermission [] "conn" 1) "conn" 2).lookup
        "conn" = some 2 ∧
    respondPermission
        (registerPermission (registerPermission [] "conn" 1) "conn" 2)
        "conn" "opt-1" = some (2, "opt-1") ∧
    (2 : Nat) ≠ 1 := by
  decide

/-! ## Inbound request dispatch (`Client.handleRequest`, client.go) -/

/-- The agent-to-client methods the switch in `handleRequest` recognises,
plus the default case for any other method name. -/
inductive AgentMethod
  | requestPermission
  | fsReadTextFile
  | fsWriteTextFile
  | terminalCreate
  | terminalOutput
  | terminalWait
  | terminalKill
  | terminalRelease
  | other (name : String)
deriving DecidableEq, Repr

def methodName : AgentMethod → String
  | AgentMethod.requestPermission => "requestPermission"
  | AgentMethod.fsReadTextFile => "fs/readTextFile"
  | AgentMethod.fsWriteTextFile => "fs/writeTextFile"
  | AgentMethod.terminalCreate => "terminal/create"
  | AgentMethod.terminalOutput => "terminal/output"
  | AgentMethod.terminalWait => "terminal/wait"
  | AgentMethod.terminalKill => "terminal/kill"
  | AgentMethod.terminalRelease => "terminal/release"
  | AgentMethod.other name => name

/-- The handlers whose success leaves `result` as the empty `struct{}{}`
(fs/writeTextFile, terminal/kill, terminal/release). -/
def isVoidResult : AgentMethod → Bool
  | AgentMethod.requestPermission => false
  | AgentMethod.fsReadTextFile => false
  | AgentMethod.fsWriteTextFile => true
  | AgentMethod.terminalCreate => false
  | AgentMethod.terminalOutput => false
  | AgentMethod.terminalWait => false
  | AgentMethod.terminalKill => true
  | AgentMethod.terminalRelease => true
  | AgentMethod.other _ => false

def isKnownMethod : AgentMethod → Bool
  | AgentMethod.requestPermission => true
  | AgentMethod.fsReadTextFile => true
  | AgentMethod.fsWriteTextFile => true
  | AgentMethod.terminalCreate => true
  | AgentMethod.terminalOutput => true
  | AgentMethod.terminalWait => true
  | AgentMethod.terminalKill => true
  | AgentMethod.terminalRelease => true
  | AgentMethod.other _ => false

/-- The response `handleRequest` sends back: a handler result value, the
empty-object result of a void handler, or a JSON-RPC error object. -/
inductive RpcReply
  | resultValue
  | emptyObject
  | rpcError (code : Int) (message : String)
deriving DecidableEq, Repr

/-- `Client.handleRequest` (client.go): unknown methods reply -32601; a
recognised method with no registered handler replies -32601; a params
unmarshal failure replies -32602; a handler domain error replies -32603
with the error's message; a successful void handler replies the empty
object, a successful valued handler replies its result.  The
`requestPermission` handler cannot fail, so its registered/parsed path
always produces a result. -/
def handleRequest (m : AgentMethod) (registered : Bool) (parseOk : Bool)
    (handlerErr : Option String) : RpcReply :=
  match m with
  | AgentMethod.other name =>
      RpcReply.rpcError (-32601) ("unknown method: " ++ name)
  | AgentMethod.requestPermission =>
      if registered then
        if parseOk then RpcReply.resultValue
        else RpcReply.rpcError (-32602) "invalid params"
      else RpcReply.rpcError (-32601) ("no handler for " ++ methodName m)
  | _ =>
      if registered then
        if parseOk then
          match handlerErr with
          | some e => RpcReply.rpcError (-32603) e
          | none =>
              if isVoidResult m then RpcReply.emptyObject
              else RpcReply.resultValue
        else RpcReply.rpcError (-32602) "invalid params"
      else RpcReply.rpcError (-32601) ("no handler for " ++ methodName m)

/-- C9: for every inbound agent request, an unknown method replies -32601;
a recognised method with no registered handler replies -32601; a params
parse failure replies -32602; a handler domain error replies -32603 with
the handler's message; and a successful void handler produces the
empty-object result. -/
theorem C9_inbound_request_error_codes (m : AgentMethod) (name : String)
    (parseOk : Bool) (handlerErr : Option String) (e : String) :
    (handleRequest (AgentMethod.other name) true parseOk handlerErr =
      RpcReply.rpcError (-32601) ("unknown method: " ++ name)) ∧
    (isKnownMethod m = true →
      handleRequest m false parseOk handlerErr =
        RpcReply.rpcError (-32601) ("no handler for " ++ methodName m)) ∧
    (isKnownMethod m = true →
      handleRequest m true false handlerErr =
        RpcReply.rpcError (-32602) "invalid params") ∧
    (isKnownMethod m = true → m ≠ AgentMethod.requestPermission →
      handleRequest m true true (some e) = RpcReply.rpcError (-32603) e) ∧
    (isVoidResult m = true →
      handleRequest m true true none = RpcReply.emptyObject) := by
  refine ⟨rfl, ?_, ?_, ?_, ?_⟩
  · intro hk
    cases m <;> first
      | rfl
      | exact absurd hk (by simp [isKnownMethod])
  · intro hk
    cases m <;> first
      | rfl
      | exact absurd hk (by simp [isKnownMethod])
  · intro hk hne
    cases m <;> first
      | rfl
      | exact absurd rfl hne
      | exact absurd hk (by simp [isKnownMethod])
  · intro hv
    cases m <;> first
      | rfl
      | exact absurd hv (by simp [isVoidResult])

/-- C9 witness: concrete replies for `fs/readTextFile` (valued handler) and
`fs/writeTextFile` (void handler). -/
theorem C9_inbound_request_error_codes_witness :
    (handleRequest (AgentMethod.other "x/y") true true none =
      RpcReply.rpcError (-32601) ("unknown method: " ++ "x/y")) ∧
    (handleRequest AgentMethod.fsReadTextFile false true none =
      RpcReply.rpcError (-32601)
        ("no handler for " ++ methodName AgentMethod.fsReadTextFile)) ∧
    (handleRequest AgentMethod.fsReadTextFile true false none =
      RpcReply.rpcError (-32602) "invalid params") ∧
    (handleRequest AgentMethod.fsReadTextFile true true (some "boom") =
      RpcReply.rpcError (-32603) "boom") ∧
    (handleRequest AgentMethod.fsWriteTextFile true true none =
      RpcReply.emptyObject) :=
  ⟨(C9_inbound_request_error_codes AgentMethod.fsReadTextFile "x/y" true none
      "boom").1,
   (C9_inbound_request_error_codes AgentMethod.fsReadTextFile "x/y" true none
      "boom").2.1 (by decide),
   (C9_inbound_request_error_codes AgentMethod.fsReadTextFile "x/y" true
      none "boom").2.2.1 (by decide),
   (C9_inbound_request_error_codes AgentMethod.fsReadTextFile "x/y" true none
      "boom").2.2.2.1 (by decide) (by decide),
   (C9_inbound_request_error_codes AgentMethod.fsWriteTextFile "x/y" true none
      "boom").2.2.2.2 (by decide)⟩

/-! ## Session store (internal/session/store.go) -/

/-- `session.Message`: time is modelled as `Nat`, with 0 the zero value of
`time.Time` (`Timestamp.IsZero`). -/
structure Message where
  role : String
  content : String
  timestamp : Nat
deriving DecidableEq, Repr

/-- `session.ToolCallRecord`. -/
structure ToolCallRecord where
  id : String
  title : String
  kind : String
  status : String
  content : String
  timestamp : Nat
deriving DecidableEq, Repr

/-- `session.SessionRecord`. -/
structure SessionRecord where
  id : String
  agentName : String
  connectionID : String
  cwd : String
  messages : List Message
  toolCalls : List ToolCallRecord
  createdAt : Nat
  updatedAt : Nat
deriving DecidableEq, Repr

/-- `session.Store`: the Go map from session id to record, modelled as an
association list with unique keys. -/
abbrev Store := List (String × SessionRecord)

/-- In-place mutation of the record a map entry points to. -/
def storeUpdate (s : Store) (sessionID : String) (rec : SessionRecord) :
    Store :=
  s.map (fun e => if e.1 = sessionID then (e.1, rec) else e)

/-- `Store.AddMessage`: no-op when the session is missing; otherwise stamp
a zero timestamp with `now`, append the message, and touch `UpdatedAt`. -/
def addMessage (s : Store) (sessionID : String) (msg : Message) (now : Nat) :
    Store :=
  match s.lookup sessionID with
  | none => s
  | some rec =>
      let m := if msg.timestamp = 0 then { msg with timestamp := now } else msg
      storeUpdate s sessionID
        { rec with messages := rec.messages ++ [m], updatedAt := now }

/-- `Store.AddToolCall`: same shape as `AddMessage`. -/
def addToolCall (s : Store) (sessionID : String) (tc : ToolCallRecord)
    (now : Nat) : Store :=
  match s.lookup sessionID with
  | none => s
  | some rec =>
      let t := if tc.timestamp = 0 then { tc with timestamp := now } else tc
      storeUpdate s sessionID
        { rec with toolCalls := rec.toolCalls ++ [t], updatedAt := now }

/-- The loop body of `Store.UpdateToolCall`: update the first tool call
with a matching id, leave the rest untouched. -/
def updateFirstToolCall :
    List ToolCallRecord → String → String → String → List ToolCallRecord
  | [], _, _, _ => []
  | tc :: rest, toolCallID, status, content =>
      if tc.id = toolCallID then
        { tc with status := status, content := content } :: rest
      else tc :: updateFirstToolCall rest toolCallID status content

/-- `Store.UpdateToolCall`: no-op when the session is missing; when the
session exists, the loop updates the first tool call with the given id and
stamps `UpdatedAt`, and falls through without any mutation when no tool
call matches. -/
def updateToolCall (s : Store) (sessionID toolCallID status content : String)
    (now : Nat) : Store :=
  match s.lookup sessionID with
  | none => s
  | some rec =>
      if rec.toolCalls.any (fun tc => tc.id == toolCallID) then
        storeUpdate s sessionID
          { rec with
              toolCalls := updateFirstToolCall rec.toolCalls toolCallID status content,
              updatedAt := now }
      else s

/-- C10: for a session id not in the store, `AddMessage`, `AddToolCall` and
`UpdateToolCall` return leaving the store unchanged; and `UpdateToolCall`
on an existing session with an unknown tool-call id also leaves the store
— including the record's `UpdatedAt` — unchanged. -/
theorem C10_store_no_op_frames
    (s : Store) (sessionID toolCallID status content : String)
    (msg : Message) (tc : ToolCallRecord) (now : Nat) :
    (s.lookup sessionID = none →
      addMessage s sessionID msg now = s ∧
      addToolCall s sessionID tc now = s ∧
      updateToolCall s sessionID toolCallID status content now = s) ∧
    (∀ rec, s.lookup sessionID = some rec →
      (∀ t ∈ rec.toolCalls, t.id ≠ toolCallID) →
      updateToolCall s sessionID toolCallID status content now = s) := by
  constructor
  · intro hnone
    refine ⟨?_, ?_, ?_⟩ <;>
      simp [addMessage, addToolCall, updateToolCall, hnone]
  · intro rec hrec hno
    have hany : ¬ (rec.toolCalls.any (fun tc => tc.id == toolCallID) = true) := by
      simp only [List.any_eq_true, beq_iff_eq, not_exists]
      intro t
      intro hcontra
      exact hno t hcontra.1 hcontra.2
    simp only [updateToolCall, hrec]
    rw [if_neg hany]

/-- C10 witness: a store holding session `"a"` with one tool call `"t1"`,
exercised with the absent session `"b"` and the unknown tool-call id
`"zz"`. -/
theorem C10_store_no_op_frames_witness :
    (addMessage [("a", ⟨"a", "ag", "c1", "/w", [], [⟨"t1", "ti", "k", "st", "co", 1⟩], 1, 1⟩)]
        "b" ⟨"user", "hello", 0⟩ 9 =
      [("a", ⟨"a", "ag", "c1", "/w", [], [⟨"t1", "ti", "k", "st", "co", 1⟩], 1, 1⟩)] ∧
     addToolCall [("a", ⟨"a", "ag", "c1", "/w", [], [⟨"t1", "ti", "k", "st", "co", 1⟩], 1, 1⟩)]
        "b" ⟨"t2", "ti", "k", "st", "co", 0⟩ 9 =
      [("a", ⟨"a", "ag", "c1", "/w", [], [⟨"t1", "ti", "k", "st", "co", 1⟩], 1, 1⟩)] ∧
     updateToolCall [("a", ⟨"a", "ag", "c1", "/w", [], [⟨"t1", "ti", "k", "st", "co", 1⟩], 1, 1⟩)]
        "b" "zz" "done" "out" 9 =
      [("a", ⟨"a", "ag", "c1", "/w", [], [⟨"t1", "ti", "k", "st", "co", 1⟩], 1, 1⟩)]) ∧
    updateToolCall [("a", ⟨"a", "ag", "c1", "/w", [], [⟨"t1", "ti", "k", "st", "co", 1⟩], 1, 1⟩)]
        "a" "zz" "done" "out" 9 =
      [("a", ⟨"a", "ag", "c1", "/w", [], [⟨"t1", "ti", "k", "st", "co", 1⟩], 1, 1⟩)] :=
  ⟨(C10_store_no_op_frames _ "b" "zz" "done" "out" ⟨"user", "hello", 0⟩
      ⟨"t2", "ti", "k", "st", "co", 0⟩ 9).1 (by decide),
   (C10_store_no_op_frames _ "a" "zz" "done" "out" ⟨"user", "hello", 0⟩
      ⟨"t2", "ti", "k", "st", "co", 0⟩ 9).2
     ⟨"a", "ag", "c1", "/w", [], [⟨"t1", "ti", "k", "st", "co", 1⟩], 1, 1⟩
     (by decide) (by decide)⟩

/-! ## Session-update wire codec (internal/acp/types.go) -/

/-- `acp.Resource`. -/
structure Resource where
  uri : String
  mimeType : String
  text : String
deriving DecidableEq, Repr

/-- `acp.ContentBlock` (text, image, audio, resource, resource_link). -/
structure ContentBlock where
  type : String
  text : String
  resource : Option Resource
  data : String
  mimeType : String
deriving DecidableEq, Repr

/-- `acp.ToolCallContent` (plain content, diff, or terminal reference). -/
structure ToolCallContent where
  type : String
  content : Option ContentBlock
  path : String
  oldText : String
  newText : String
  terminalId : String
deriving DecidableEq, Repr

/-- `acp.ToolCallLocation`. -/
structure ToolCallLocation where
  path : String
  line : Int
deriving DecidableEq, Repr

/-- `acp.PlanEntry`. -/
structure PlanEntry where
  content : String
  priority : String
  status : String
deriving DecidableEq, Repr

/-- `acp.AvailableCommandInput`. -/
structure AvailableCommandInput where
  hint : String
deriving DecidableEq, Repr

/-- `acp.AvailableCommand`. -/
structure AvailableCommand where
  name : String
  description : String
  input : Option AvailableCommandInput
deriving DecidableEq, Repr

/-- The `SessionUpdate` type discriminator constants. -/
def UpdateAgentMessageChunk : String := "agent_message_chunk"

def UpdateUserMessageChunk : String := "user_message_chunk"

def UpdateToolCall : String := "tool_call"

def UpdateToolCallUpdate : String := "tool_call_update"

def UpdatePlan : String := "plan"

def UpdateAvailableCommands : String := "available_commands_update"

/-- `acp.SessionUpdate`, the in-memory model: the overloaded wire `content`
is split into `messageContent` (message chunks) and `toolContent` (tool
calls).  `rawInput`/`rawOutput` carry raw JSON, modelled as opaque strings
(`none` = absent). -/
structure SessionUpdate where
  type : String
  messageContent : Option ContentBlock
  toolCallId : String
  title : String
  kind : String
  status : String
  toolContent : List ToolCallContent
  locations : List ToolCallLocation
  rawInput : Option String
  rawOutput : Option String
  entries : List PlanEntry
  availableCommands : List AvailableCommand
deriving DecidableEq, Repr

/-- The JSON value the wire `content` key can hold: a single content block
or an array of tool-call content items. -/
inductive ContentWire
  | block (cb : ContentBlock)
  | items (tcc : List ToolCallContent)
deriving DecidableEq, Repr

/-- `acp.sessionUpdateJSON`, the raw wire shape with the overloaded
`content` key (`none` = key absent). -/
structure SessionUpdateWire where
  sessionUpdate : String
  content : Option ContentWire
  toolCallId : String
  title : String
  kind : String
  status : String
  locations : List ToolCallLocation
  rawInput : Option String
  rawOutput : Option String
  entries : List PlanEntry
  availableCommands : List AvailableCommand
deriving DecidableEq, Repr

/-- `SessionUpdate.MarshalJSON`: copy the shared fields, then emit
`content` according to the variant — the message content block for message
chunks (when present), the tool-call content array for tool calls (when
non-nil), and nothing otherwise. -/
def marshalSessionUpdate (u : SessionUpdate) : SessionUpdateWire :=
  let raw : SessionUpdateWire :=
    { sessionUpdate := u.type
      content := none
      toolCallId := u.toolCallId
      title := u.title
      kind := u.kind
      status := u.status
      locations := u.locations
      rawInput := u.rawInput
      rawOutput := u.rawOutput
      entries := u.entries
      availableCommands := u.availableCommands }
  if u.type = UpdateAgentMessageChunk ∨ u.type = UpdateUserMessageChunk then
    { raw with content := u.messageContent.map ContentWire.block }
  else if u.type = UpdateToolCall ∨ u.type = UpdateToolCallUpdate then
    if u.toolContent ≠ [] then
      { raw with content := some (ContentWire.items u.toolContent) }
    else raw
  else raw

/-- `SessionUpdate.UnmarshalJSON`: copy the shared fields; when `content`
is present, interpret it by the discriminator — a single block for message
chunks, an array for tool calls (the mismatched shape is an unmarshal
error), and for unknown discriminators try the array first, then the
single object. -/
def unmarshalSessionUpdate (w : SessionUpdateWire) :
    Except String SessionUpdate :=
  let u : SessionUpdate :=
    { type := w.sessionUpdate
      messageContent := none
      toolCallId := w.toolCallId
      title := w.title
      kind := w.kind
      status := w.status
      toolContent := []
      locations := w.locations
      rawInput := w.rawInput
      rawOutput := w.rawOutput
      entries := w.entries
      availableCommands := w.availableCommands }
  match w.content with
  | none => Except.ok u
  | some cw =>
      if w.sessionUpdate = UpdateAgentMessageChunk ∨
          w.sessionUpdate = UpdateUserMessageChunk then
        match cw with
        | ContentWire.block cb => Except.ok { u with messageContent := some cb }
        | ContentWire.items _ => Except.error "unmarshal message content"
      else if w.sessionUpdate = UpdateToolCall ∨
          w.sessionUpdate = UpdateToolCallUpdate then
        match cw with
        | ContentWire.items tcc => Except.ok { u with toolContent := tcc }
        | ContentWire.block _ => Except.error "unmarshal tool call content"
      else
        match cw with
        | ContentWire.items tcc => Except.ok { u with toolContent := tcc }
        | ContentWire.block cb => Except.ok { u with messageContent := some cb }

/-- The six wire variants. -/
def knownUpdateTypes : List String :=
  [UpdateAgentMessageChunk, UpdateUserMessageChunk, UpdateToolCall,
   UpdateToolCallUpdate, UpdatePlan, UpdateAvailableCommands]

/-- A `SessionUpdate` value populates the content field of its own variant
only, as documented on the Go struct: message chunks carry
`MessageContent`, tool calls carry `ToolContent`, and the plan / command
variants carry neither. -/
def wfSessionUpdate (u : SessionUpdate) : Prop :=
  ((u.type = UpdateAgentMessageChunk ∨ u.type = UpdateUserMessageChunk) →
    u.toolContent = []) ∧
  ((u.type = UpdateToolCall ∨ u.type = UpdateToolCallUpdate) →
    u.messageContent = none) ∧
  ((u.type = UpdatePlan ∨ u.type = UpdateAvailableCommands) →
    u.messageContent = none ∧ u.toolContent = [])

/-- C2: for every session-update variant, encoding and then decoding is the
identity on all fields, including the overloaded `content` field (a single
content block for message chunks, an array of tool-call content items for
tool calls). -/
theorem C2_session_update_round_trip (u : SessionUpdate)
    (hmem : u.type ∈ knownUpdateTypes) (hwf : wfSessionUpdate u) :
    unmarshalSessionUpdate (marshalSessionUpdate u) = Except.ok u := by
  obtain ⟨hwf1, hwf2, hwf3⟩ := hwf
  rcases u with ⟨ty, mc, tcid, ti, k, st, tcc, locs, ri, ro, ent, ac⟩
  simp only [knownUpdateTypes, List.mem_cons, List.not_mem_nil, or_false]
    at hmem
  dsimp only at hmem hwf1 hwf2 hwf3
  rcases hmem with h | h | h | h | h | h
  · subst h
    have htcc : tcc = [] := hwf1 (Or.inl rfl)
    subst htcc
    cases mc <;> rfl
  · subst h
    have htcc : tcc = [] := hwf1 (Or.inr rfl)
    subst htcc
    cases mc <;> rfl
  · subst h
    have hmc : mc = none := hwf2 (Or.inl rfl)
    subst hmc
    by_cases htcc : tcc = []
    · subst htcc
      rfl
    · simp only [marshalSessionUpdate]
      rw [if_neg (by decide), if_pos (show (True ∨ UpdateToolCall = UpdateToolCallUpdate) from Or.inl trivial), if_pos htcc]
      simp only [unmarshalSessionUpdate]
      rw [if_neg (by decide), if_pos (show (True ∨ UpdateToolCall = UpdateToolCallUpdate) from Or.inl trivial)]
  · subst h
    have hmc : mc = none := hwf2 (Or.inr rfl)
    subst hmc
    by_cases htcc : tcc = []
    · subst htcc
      rfl
    · simp only [marshalSessionUpdate]
      rw [if_neg (by decide), if_pos (show (UpdateToolCallUpdate = UpdateToolCall ∨ True) from Or.inr trivial), if_pos htcc]
      simp only [unmarshalSessionUpdate]
      rw [if_neg (by decide), if_pos (show (UpdateToolCallUpdate = UpdateToolCall ∨ True) from Or.inr trivial)]
  · subst h
    obtain ⟨hmc, htcc⟩ := hwf3 (Or.inl rfl)
    subst hmc
    subst htcc
    rfl
  · subst h
    obtain ⟨hmc, htcc⟩ := hwf3 (Or.inr rfl)
    subst hmc
    subst htcc
    rfl

/-- C2 witness: a concrete `tool_call` update carrying a diff content item,
and its round trip. -/
theorem C2_session_update_round_trip_witness :
    unmarshalSessionUpdate (marshalSessionUpdate
      ⟨UpdateToolCall, none, "t1", "Edit file", "edit", "pending",
        [⟨"diff", none, "/a.txt", "old", "new", ""⟩],
        [⟨"/a.txt", 3⟩], some "rawIn", none, [], []⟩) =
      Except.ok
      ⟨UpdateToolCall, none, "t1", "Edit file", "edit", "pending",
        [⟨"diff", none, "/a.txt", "old", "new", ""⟩],
        [⟨"/a.txt", 3⟩], some "rawIn", none, [], []⟩ :=
  C2_session_update_round_trip _ (by decide)
    ⟨fun h => absurd h (by decide), fun _ => rfl, fun h => absurd h (by decide)⟩
